import Mathlib

set_option maxHeartbeats 1000000

/-!
Shallow embedding of `src/CancelToken.js` (zenparsing/es-observable-cancellation).

The source file defines a class `CancelToken` holding a write-once `_reason`
(a `Cancel` object wrapping `String(msg)`) and a Set `_observers` managed by a
`zen-observable` instance whose subscriber function adds the observer to the
set and returns a disposer that deletes it.  `_dispatch` iterates over a
snapshot (`Array.from`) of the set, calling `observer.next(this._reason)` and
`observer.complete()` each under its own try/catch that forwards thrown errors
to `HostReportErrors`, then clears the set.  `subscribe` registers through the
observable and, if `_reason` is already set, immediately dispatches.  The
trigger closure handed to the constructor argument `fn` stores
`new Cancel(msg)` on first call and dispatches; later calls are no-ops.

Modelling notes:
* The external subscribable channel (`zen-observable`) is modelled at the
  interface given in the spec (section 6): registering adds the observer to the
  token's set and returns a disposer that removes it; delivery invokes the
  observer's callbacks directly and synchronously.
* JS values that can be passed as a trigger message are modelled by `JSVal`;
  `jsToString` is the JS `String(·)` coercion on those values (`String(undefined)
  = "undefined"`, and an object without its own `toString`, such as a `Cancel`
  instance, coerces to `"[object Object]"`).
* Observer callbacks are modelled by `ObsBehavior`: flags saying whether the
  `next`/`complete` callbacks throw, and a list of scripts, one consumed per
  received `next` notification, whose actions may re-entrantly subscribe a new
  observer to the same token or unsubscribe an observer.  Host-reported errors
  and deliveries are recorded in an event log.
* Every operation is run by the fuel-indexed interpreter `exec`; `none` means
  the fuel ran out (the corresponding JS run would still be executing).
  Fuel is the first argument and strictly decreases on every call, so `exec`
  is structurally recursive and computable.
-/

/-- JS values that reach `new Cancel(msg)` as the message argument. -/
inductive JSVal where
  | undef
  | str (s : String)
  | cancelObj (m : String)
deriving Repr, DecidableEq

/-- The JS `String(·)` coercion restricted to `JSVal`.  `String(undefined)` is
`"undefined"`; a `Cancel` instance has no own `toString`, so it coerces to
`"[object Object]"` regardless of its `_msg`. -/
def jsToString : JSVal → String
  | JSVal.undef => "undefined"
  | JSVal.str s => s
  | JSVal.cancelObj _ => "[object Object]"

/-- `class Cancel { constructor(msg) { this._msg = String(msg) } }`:
an immutable wrapper around the coerced message. -/
structure Cancel where
  msg : String
deriving Repr, DecidableEq

/-- `new Cancel(msg)`: coerce the message and wrap it. -/
def mkCancel (v : JSVal) : Cancel := Cancel.mk (jsToString v)

/-- A re-entrant action an observer's `next` callback may perform on the same
token: subscribe a fresh observer (whose behavior is the `i`-th template of the
ambient environment) or unsubscribe the observer with a given identity. -/
inductive ScriptAct where
  | subAct (i : Nat)
  | unsubAct (o : Nat)
deriving Repr, DecidableEq

/-- The behavior of one observer object: whether its `next` / `complete`
callbacks throw, and the scripts its `next` callback runs, one script consumed
per `next` notification it receives (an empty or exhausted script list means
the callback has no side effects on the token). -/
structure ObsBehavior where
  nextThrows : Bool
  completeThrows : Bool
  scripts : List (List ScriptAct)
deriving Repr, DecidableEq

/-- An observer that does nothing and never throws. -/
def inertBeh : ObsBehavior := ObsBehavior.mk false false []

/-- State of one `CancelToken`:
* `reason` is `this._reason` (`none` = JS `undefined`);
* `observers` is the insertion-ordered contents of `this._observers`
  (observer identities);
* `store` records, per observer identity ever created, its current behavior
  (the observer object's internal state; entries persist after removal from
  the set, as the JS observer object does);
* `nextId` is the next fresh observer identity (each `subscribe` call creates
  a fresh observer object). -/
structure TokenSt where
  reason : Option Cancel
  observers : List Nat
  store : List (Nat × ObsBehavior)
  nextId : Nat
deriving Repr, DecidableEq

/-- A freshly constructed token: no reason, no observers. -/
def initSt : TokenSt := TokenSt.mk none [] [] 0

/-- Look up an observer object's current behavior by identity. -/
def lookupStore : List (Nat × ObsBehavior) → Nat → ObsBehavior
  | [], _ => inertBeh
  | p :: rest, o => if p.1 = o then p.2 else lookupStore rest o

/-- Advance observer `o`'s internal state past its first script (it is consumed
when a `next` notification is delivered to `o`). -/
def popHead : List (Nat × ObsBehavior) → Nat → List (Nat × ObsBehavior)
  | [], _ => []
  | p :: rest, o =>
    if p.1 = o then
      (p.1, ObsBehavior.mk p.2.nextThrows p.2.completeThrows p.2.scripts.tail) :: rest
    else p :: popHead rest o

/-- Events observable during a run: `next`/`complete` deliveries to an
observer, and an error forwarded to `HostReportErrors` after a callback of the
given observer threw. -/
inductive Ev where
  | nextEv (o : Nat) (c : Cancel)
  | completeEv (o : Nat)
  | errEv (o : Nat)
deriving Repr, DecidableEq

/-- Requests interpreted by `exec`; each constructor corresponds to one
source-level routine:
* `dispatchR` = `_dispatch()`;
* `deliverR snap` = the `for (let observer of Array.from(...))` loop of
  `_dispatch` with `snap` the remaining snapshot;
* `actsR acts` = the remaining re-entrant actions of the observer callback
  currently being notified;
* `subR beh` = `subscribe(beh)`. -/
inductive Req where
  | dispatchR
  | deliverR (snap : List Nat)
  | actsR (acts : List ScriptAct)
  | subR (beh : ObsBehavior)
deriving Repr, DecidableEq

/-- Fuel-indexed interpreter for the token's operations, a direct translation
of `src/CancelToken.js`:

* `dispatchR`: snapshot the observer set, deliver along the snapshot, then
  clear the set (`this._observers.clear()`).
* `deliverR (o :: rest)`: `observer.next(this._reason)` — recorded as a
  `nextEv`, followed by the side effects of the callback's current script and,
  if the callback throws, an `errEv` (the error is caught and host-reported) —
  then `observer.complete()` with its own catch, then the rest of the snapshot.
* `actsR`: the callback's re-entrant actions; `subAct i` performs
  `token.subscribe(template i)`, `unsubAct o` performs
  `subscription.unsubscribe()` for observer `o` (the zen-observable disposer
  `() => this._observers.delete(observer)`).
* `subR beh`: `this._observable.subscribe(...)` runs the subscriber function,
  adding a fresh observer to the set; then
  `if (this._reason !== undefined) this._dispatch()`.

`none` means the fuel ran out before the operation finished. -/
def exec : Nat → List ObsBehavior → Req → TokenSt → Option (TokenSt × List Ev)
  | 0, _, _, _ => none
  | f + 1, env, Req.dispatchR, st =>
    match exec f env (Req.deliverR st.observers) st with
    | none => none
    | some (st1, log) => some ({ st1 with observers := [] }, log)
  | _ + 1, _, Req.deliverR [], st => some (st, [])
  | f + 1, env, Req.deliverR (o :: rest), st =>
    let r := st.reason.getD (Cancel.mk "")
    let b := lookupStore st.store o
    let st1 := { st with store := popHead st.store o }
    match exec f env (Req.actsR (b.scripts.headD [])) st1 with
    | none => none
    | some (st2, alog) =>
      match exec f env (Req.deliverR rest) st2 with
      | none => none
      | some (st3, rlog) =>
        some (st3,
          (Ev.nextEv o r :: (alog ++ (if b.nextThrows then [Ev.errEv o] else [])))
            ++ ((Ev.completeEv o :: (if b.completeThrows then [Ev.errEv o] else []))
                ++ rlog))
  | _ + 1, _, Req.actsR [], st => some (st, [])
  | f + 1, env, Req.actsR (ScriptAct.unsubAct x :: rest), st =>
    exec f env (Req.actsR rest)
      { st with observers := st.observers.filter (fun y => y != x) }
  | f + 1, env, Req.actsR (ScriptAct.subAct i :: rest), st =>
    match exec f env (Req.subR (env.getD i inertBeh)) st with
    | none => none
    | some (st1, slog) =>
      match exec f env (Req.actsR rest) st1 with
      | none => none
      | some (st2, rlog) => some (st2, slog ++ rlog)
  | f + 1, env, Req.subR beh, st =>
    let st1 := { st with
      observers := st.observers ++ [st.nextId],
      store := st.store ++ [(st.nextId, beh)],
      nextId := st.nextId + 1 }
    match st1.reason with
    | none => some (st1, [])
    | some _ => exec f env Req.dispatchR st1

/-- `this._dispatch()`. -/
def dispatch (f : Nat) (env : List ObsBehavior) (st : TokenSt) :
    Option (TokenSt × List Ev) :=
  exec f env Req.dispatchR st

/-- `token.subscribe(beh)`: the new observer's identity is `st.nextId`. -/
def subscribe (f : Nat) (env : List ObsBehavior) (beh : ObsBehavior)
    (st : TokenSt) : Option (TokenSt × List Ev) :=
  exec f env (Req.subR beh) st

/-- The trigger closure the constructor passes to `fn`:
`msg => { if (this._reason === undefined) { this._reason = new Cancel(msg);
this._dispatch(); } }`. -/
def trigger (f : Nat) (env : List ObsBehavior) (m : JSVal) (st : TokenSt) :
    Option (TokenSt × List Ev) :=
  match st.reason with
  | some _ => some (st, [])
  | none => dispatch f env { st with reason := some (mkCancel m) }

/-- `CancelToken.source()` returns `{token, cancel}` where `token` starts as
`initSt` and `cancel` is exactly the token's trigger closure
(`source.cancel = cancel` inside the setup function). -/
def sourceCancel : Nat → List ObsBehavior → JSVal → TokenSt →
    Option (TokenSt × List Ev) :=
  trigger

/-- `throwIfRequested()`: throws the stored reason if set, otherwise returns
normally; it reads `this._reason` and changes no state. -/
def throwIfRequested (st : TokenSt) : Except Cancel Unit :=
  match st.reason with
  | some r => Except.error r
  | none => Except.ok ()

/-- A public operation on one token: subscribe an observer built from the
`i`-th environment template, call the trigger with message `m`, or unsubscribe
observer `o`. -/
inductive Op where
  | subOp (i : Nat)
  | triggerOp (m : JSVal)
  | unsubOp (o : Nat)
deriving Repr, DecidableEq

/-- Run a single public operation. -/
def stepOp (f : Nat) (env : List ObsBehavior) (op : Op) (st : TokenSt) :
    Option (TokenSt × List Ev) :=
  match op with
  | Op.subOp i => subscribe f env (env.getD i inertBeh) st
  | Op.triggerOp m => trigger f env m st
  | Op.unsubOp o => some ({ st with observers := st.observers.filter (fun y => y != o) }, [])

/-- Run a sequence of public operations, concatenating the event logs. -/
def runOps : Nat → List ObsBehavior → List Op → TokenSt →
    Option (TokenSt × List Ev)
  | 0, _, _, _ => none
  | _ + 1, _, [], st => some (st, [])
  | f + 1, env, op :: rest, st =>
    match stepOp f env op st with
    | none => none
    | some (st1, log1) =>
      match runOps f env rest st1 with
      | none => none
      | some (st2, log2) => some (st2, log1 ++ log2)

/-- Number of `next` deliveries to observer `x` in a log. -/
def countNext (x : Nat) : List Ev → Nat
  | [] => 0
  | Ev.nextEv o _ :: rest => (if o = x then 1 else 0) + countNext x rest
  | _ :: rest => countNext x rest

/-- Number of `complete` deliveries to observer `x` in a log. -/
def countComplete (x : Nat) : List Ev → Nat
  | [] => 0
  | Ev.completeEv o :: rest => (if o = x then 1 else 0) + countComplete x rest
  | _ :: rest => countComplete x rest

/-- The throw flags of observer `o` as recorded in a store. -/
def flagOf (store : List (Nat × ObsBehavior)) (o : Nat) : Bool × Bool :=
  ((lookupStore store o).nextThrows, (lookupStore store o).completeThrows)

/-- The events one dispatch iteration produces for observer `o` when its
callbacks have no re-entrant side effects: `next` with the reason, an error
report if `next` throws, `complete`, an error report if `complete` throws. -/
def passElem (fl : Nat → Bool × Bool) (r : Cancel) (o : Nat) : List Ev :=
  Ev.nextEv o r ::
    ((if (fl o).1 then [Ev.errEv o] else [])
      ++ (Ev.completeEv o :: (if (fl o).2 then [Ev.errEv o] else [])))

/-- The full event log of one dispatch pass over snapshot `snap` when no
callback has re-entrant side effects. -/
def obsPassLog (fl : Nat → Bool × Bool) (r : Cancel) (snap : List Nat) :
    List Ev :=
  snap.flatMap (passElem fl r)

/-- An action that does not re-entrantly subscribe. -/
def subFreeAct : ScriptAct → Bool
  | ScriptAct.subAct _ => false
  | ScriptAct.unsubAct _ => true

/-- A script with no re-entrant subscribe. -/
def subFreeActs (l : List ScriptAct) : Bool := l.all subFreeAct

/-- A behavior whose callbacks never re-entrantly subscribe. -/
def subFreeBeh (b : ObsBehavior) : Bool := b.scripts.all subFreeActs

/-- All observer objects in the store are free of re-entrant subscribes. -/
def storeSubFree (l : List (Nat × ObsBehavior)) : Bool :=
  l.all (fun p => subFreeBeh p.2)

/-- All behavior templates of the environment are free of re-entrant
subscribes. -/
def noSubEnv (env : List ObsBehavior) : Bool := env.all subFreeBeh

/-- Every observer identity in the store is below the token's fresh-identity
counter (true of every reachable state). -/
def storeFresh (st : TokenSt) : Bool :=
  st.store.all (fun p => decide (p.1 < st.nextId))

/-- The first trigger message in a sequence of public operations. -/
def firstTrigger (ops : List Op) : Option JSVal :=
  (ops.filterMap (fun op => match op with
    | Op.triggerOp m => some m
    | _ => none)).head?

/-- One step of the setup function `fn` run by the constructor: call the
trigger with a message, or throw.  (`fn` receives only the trigger closure, so
these are the operations it can perform on the token.) -/
inductive FnAct where
  | triggerAct (m : JSVal)
  | throwAct
deriving Repr, DecidableEq

/-- Run the body of the setup function `fn`.  The final `Bool` records whether
`fn` threw: the constructor does not wrap `fn` in any try/catch, so a throw
stops `fn` and propagates to the caller of `new CancelToken(fn)`, while state
changes made before the throw (a trigger call) persist. -/
def runFn (f : Nat) (env : List ObsBehavior) :
    List FnAct → TokenSt → Option (TokenSt × List Ev × Bool)
  | [], st => some (st, [], false)
  | FnAct.throwAct :: _, st => some (st, [], true)
  | FnAct.triggerAct m :: rest, st =>
    match trigger f env m st with
    | none => none
    | some (st1, log1) =>
      match runFn f env rest st1 with
      | none => none
      | some (st2, log2, thr) => some (st2, log1 ++ log2, thr)

/-- `new CancelToken(fn)`: initialize the state, then invoke `fn` with the
trigger closure. -/
def construct (f : Nat) (env : List ObsBehavior) (acts : List FnAct) :
    Option (TokenSt × List Ev × Bool) :=
  runFn f env acts initSt

/-- The first trigger message among setup-function actions. -/
def firstFnTrigger (l : List FnAct) : Option JSVal :=
  (l.filterMap (fun a => match a with
    | FnAct.triggerAct m => some m
    | _ => none)).head?

/-!  Specialized embedding of `CancelToken.race`.

`race(list)` constructs a new token whose setup subscribes the new token's
trigger closure to every input token (`token.subscribe(cancel)`; zen-observable
wraps a function argument as the `next` callback).  When input `i` fires, its
dispatch calls `cancel(reasonOfInputI)` — passing the input's `Cancel` object —
so the race token's trigger evaluates `new Cancel(thatObject)`.
The model tracks the reason of each input token (each input's observer set
holds exactly the race forwarder) and the race token's reason. -/
structure RaceWorld where
  inputReasons : List (Option Cancel)
  raceReason : Option Cancel
deriving Repr, DecidableEq

/-- The race token's trigger, receiving the value forwarded by an input's
`next` notification: first writer wins. -/
def raceTrigger (r : Option Cancel) (v : JSVal) : Option Cancel :=
  match r with
  | some c => some c
  | none => some (mkCancel v)

/-- `CancelToken.race(list)`: subscribe the race trigger to each input in
order.  Subscribing to an input that has already fired synchronously replays
its reason (as the `Cancel` object) to the trigger. -/
def raceInit (rs : List (Option Cancel)) : RaceWorld :=
  RaceWorld.mk rs
    (rs.foldl (fun acc r => match r with
      | none => acc
      | some c => raceTrigger acc (JSVal.cancelObj c.msg)) none)

/-- Fire input `i` with message `m`: the input's trigger stores
`new Cancel(m)` on first call and dispatches to its observers — here the race
forwarder, which receives the input's `Cancel` object and passes it to the race
token's trigger.  If input `i` already fired (or does not exist), nothing
happens. -/
def fireInput (w : RaceWorld) (i : Nat) (m : JSVal) : RaceWorld :=
  match w.inputReasons[i]? with
  | none => w
  | some (some _) => w
  | some none =>
    let c := mkCancel m
    RaceWorld.mk (w.inputReasons.set i (some c))
      (raceTrigger w.raceReason (JSVal.cancelObj c.msg))

/-! ### Unfolding lemmas for `exec` -/

theorem exec_zero (env : List ObsBehavior) (req : Req) (st : TokenSt) :
    exec 0 env req st = none := rfl

theorem exec_dispatch (f : Nat) (env : List ObsBehavior) (st : TokenSt) :
    exec (f + 1) env Req.dispatchR st =
      match exec f env (Req.deliverR st.observers) st with
      | none => none
      | some (st1, log) => some ({ st1 with observers := [] }, log) := rfl

theorem exec_deliver_nil (f : Nat) (env : List ObsBehavior) (st : TokenSt) :
    exec (f + 1) env (Req.deliverR []) st = some (st, []) := rfl

theorem exec_deliver_cons (f : Nat) (env : List ObsBehavior) (o : Nat)
    (rest : List Nat) (st : TokenSt) :
    exec (f + 1) env (Req.deliverR (o :: rest)) st =
      match exec f env (Req.actsR ((lookupStore st.store o).scripts.headD []))
          { st with store := popHead st.store o } with
      | none => none
      | some (st2, alog) =>
        match exec f env (Req.deliverR rest) st2 with
        | none => none
        | some (st3, rlog) =>
          some (st3,
            (Ev.nextEv o (st.reason.getD (Cancel.mk "")) ::
              (alog ++ (if (lookupStore st.store o).nextThrows then [Ev.errEv o] else [])))
              ++ ((Ev.completeEv o ::
                    (if (lookupStore st.store o).completeThrows then [Ev.errEv o] else []))
                  ++ rlog)) := rfl

theorem exec_acts_nil (f : Nat) (env : List ObsBehavior) (st : TokenSt) :
    exec (f + 1) env (Req.actsR []) st = some (st, []) := rfl

theorem exec_acts_unsub (f : Nat) (env : List ObsBehavior) (x : Nat)
    (rest : List ScriptAct) (st : TokenSt) :
    exec (f + 1) env (Req.actsR (ScriptAct.unsubAct x :: rest)) st =
      exec f env (Req.actsR rest)
        { st with observers := st.observers.filter (fun y => y != x) } := rfl

theorem exec_acts_sub (f : Nat) (env : List ObsBehavior) (i : Nat)
    (rest : List ScriptAct) (st : TokenSt) :
    exec (f + 1) env (Req.actsR (ScriptAct.subAct i :: rest)) st =
      match exec f env (Req.subR (env.getD i inertBeh)) st with
      | none => none
      | some (st1, slog) =>
        match exec f env (Req.actsR rest) st1 with
        | none => none
        | some (st2, rlog) => some (st2, slog ++ rlog) := rfl

theorem exec_sub (f : Nat) (env : List ObsBehavior) (beh : ObsBehavior)
    (st : TokenSt) :
    exec (f + 1) env (Req.subR beh) st =
      (let st1 : TokenSt := { st with
        observers := st.observers ++ [st.nextId],
        store := st.store ++ [(st.nextId, beh)],
        nextId := st.nextId + 1 }
      match st1.reason with
      | none => some (st1, [])
      | some _ => exec f env Req.dispatchR st1) := rfl

/-! ### Reason preservation: no interpreter routine modifies `_reason` -/

theorem exec_reason : ∀ (f : Nat) (env : List ObsBehavior) (req : Req)
    (st : TokenSt) (out : TokenSt × List Ev),
    exec f env req st = some out → out.1.reason = st.reason := by
  intro f
  induction f with
  | zero => intro env req st out h; rw [exec_zero] at h; exact Option.noConfusion h
  | succ f ih =>
    intro env req st out h
    cases req with
    | dispatchR =>
      rw [exec_dispatch] at h
      cases heq : exec f env (Req.deliverR st.observers) st with
      | none => rw [heq] at h; exact Option.noConfusion h
      | some p =>
        obtain ⟨st1, log⟩ := p
        rw [heq] at h
        dsimp only at h
        simp only [Option.some.injEq] at h
        subst h
        have hh := ih _ _ _ _ heq
        exact hh
    | deliverR snap =>
      cases snap with
      | nil =>
        rw [exec_deliver_nil] at h
        simp only [Option.some.injEq] at h
        subst h
        rfl
      | cons o rest =>
        rw [exec_deliver_cons] at h
        cases heq1 : exec f env
            (Req.actsR ((lookupStore st.store o).scripts.headD []))
            { st with store := popHead st.store o } with
        | none => rw [heq1] at h; exact Option.noConfusion h
        | some p1 =>
          obtain ⟨st2, alog⟩ := p1
          rw [heq1] at h
          dsimp only at h
          cases heq2 : exec f env (Req.deliverR rest) st2 with
          | none => rw [heq2] at h; exact Option.noConfusion h
          | some p2 =>
            obtain ⟨st3, rlog⟩ := p2
            rw [heq2] at h
            dsimp only at h
            simp only [Option.some.injEq] at h
            subst h
            have hh1 := ih _ _ _ _ heq1
            have hh2 := ih _ _ _ _ heq2
            exact hh2.trans hh1
    | actsR acts =>
      cases acts with
      | nil =>
        rw [exec_acts_nil] at h
        simp only [Option.some.injEq] at h
        subst h
        rfl
      | cons a rest =>
        cases a with
        | unsubAct x =>
          rw [exec_acts_unsub] at h
          have hh := ih _ _ _ _ h
          exact hh
        | subAct i =>
          rw [exec_acts_sub] at h
          cases heq1 : exec f env (Req.subR (env.getD i inertBeh)) st with
          | none => rw [heq1] at h; exact Option.noConfusion h
          | some p1 =>
            obtain ⟨st1, slog⟩ := p1
            rw [heq1] at h
            dsimp only at h
            cases heq2 : exec f env (Req.actsR rest) st1 with
            | none => rw [heq2] at h; exact Option.noConfusion h
            | some p2 =>
              obtain ⟨st2, rlog⟩ := p2
              rw [heq2] at h
              dsimp only at h
              simp only [Option.some.injEq] at h
              subst h
              exact (ih _ _ _ _ heq2).trans (ih _ _ _ _ heq1)
    | subR beh =>
      rw [exec_sub] at h
      dsimp only at h
      cases hr : st.reason with
      | none =>
        rw [hr] at h
        dsimp only at h
        simp only [Option.some.injEq] at h
        subst h
        rfl
      | some c =>
        rw [hr] at h
        dsimp only at h
        have hh := ih _ _ _ _ h
        exact hh

/-- `_dispatch` always clears the observer set. -/
theorem dispatch_clears (f : Nat) (env : List ObsBehavior) (st : TokenSt)
    (out : TokenSt × List Ev) (h : exec f env Req.dispatchR st = some out) :
    out.1.observers = [] := by
  cases f with
  | zero => rw [exec_zero] at h; exact Option.noConfusion h
  | succ f =>
    rw [exec_dispatch] at h
    cases heq : exec f env (Req.deliverR st.observers) st with
    | none => rw [heq] at h; exact Option.noConfusion h
    | some p =>
      obtain ⟨st1, log⟩ := p
      rw [heq] at h
      dsimp only at h
      simp only [Option.some.injEq] at h
      subst h
      rfl

/-- The trigger is a no-op when the reason is already set. -/
theorem trigger_fired (f : Nat) (env : List ObsBehavior) (m : JSVal)
    (st : TokenSt) (c : Cancel) (hr : st.reason = some c) :
    trigger f env m st = some (st, []) := by
  unfold trigger
  rw [hr]

/-- On a pending token the trigger stores `new Cancel(m)` and dispatches:
afterwards the reason is exactly `mkCancel m` and the observer set is empty. -/
theorem trigger_pending (f : Nat) (env : List ObsBehavior) (m : JSVal)
    (st : TokenSt) (out : TokenSt × List Ev) (hr : st.reason = none)
    (h : trigger f env m st = some out) :
    out.1.reason = some (mkCancel m) ∧ out.1.observers = [] := by
  unfold trigger at h
  rw [hr] at h
  dsimp only at h
  constructor
  · exact exec_reason _ _ _ _ _ h
  · exact dispatch_clears _ _ _ _ h

/-- Every observer in the snapshot passed to the dispatch loop receives a
`next` notification carrying the token's reason and a `complete` notification
during the loop, whatever re-entrant side effects other observers perform. -/
theorem deliver_mem : ∀ (f : Nat) (env : List ObsBehavior) (snap : List Nat)
    (st : TokenSt) (out : TokenSt × List Ev),
    exec f env (Req.deliverR snap) st = some out →
    ∀ o ∈ snap, Ev.nextEv o (st.reason.getD (Cancel.mk "")) ∈ out.2 ∧
      Ev.completeEv o ∈ out.2 := by
  intro f
  induction f with
  | zero => intro env snap st out h; rw [exec_zero] at h; exact Option.noConfusion h
  | succ f ih =>
    intro env snap st out h
    cases snap with
    | nil => intro o ho; exact absurd ho (List.not_mem_nil o)
    | cons o rest =>
      rw [exec_deliver_cons] at h
      cases heq1 : exec f env
          (Req.actsR ((lookupStore st.store o).scripts.headD []))
          { st with store := popHead st.store o } with
      | none => rw [heq1] at h; exact Option.noConfusion h
      | some p1 =>
        obtain ⟨st2, alog⟩ := p1
        rw [heq1] at h
        dsimp only at h
        cases heq2 : exec f env (Req.deliverR rest) st2 with
        | none => rw [heq2] at h; exact Option.noConfusion h
        | some p2 =>
          obtain ⟨st3, rlog⟩ := p2
          rw [heq2] at h
          dsimp only at h
          simp only [Option.some.injEq] at h
          subst h
          intro x hx
          rcases List.mem_cons.1 hx with hx | hx
          · subst hx
            constructor
            · simp [List.mem_append, List.mem_cons]
            · simp [List.mem_append, List.mem_cons]
          · have hst2 : st2.reason = st.reason := exec_reason _ _ _ _ _ heq1
            have hmem := ih env rest st2 (st3, rlog) heq2 x hx
            rw [hst2] at hmem
            have hm1 : Ev.nextEv x (st.reason.getD (Cancel.mk "")) ∈ rlog := hmem.1
            have hm2 : Ev.completeEv x ∈ rlog := hmem.2
            constructor
            · simp [List.mem_append, List.mem_cons, hm1]
            · simp [List.mem_append, List.mem_cons, hm2]

/-! ### Store bookkeeping lemmas -/

theorem lookup_popHead_flags (l : List (Nat × ObsBehavior)) (o x : Nat) :
    (lookupStore (popHead l o) x).nextThrows = (lookupStore l x).nextThrows ∧
    (lookupStore (popHead l o) x).completeThrows
      = (lookupStore l x).completeThrows := by
  induction l with
  | nil => exact ⟨rfl, rfl⟩
  | cons p rest ih =>
    by_cases h : p.1 = o
    · by_cases h2 : p.1 = x
      · have hox : o = x := h.symm.trans h2
        simp [popHead, lookupStore, h, h2, hox]
      · have hox : ¬(o = x) := fun e => h2 (h.trans e)
        simp [popHead, lookupStore, h, h2, hox]
    · by_cases h2 : p.1 = x
      · have hxo : ¬(x = o) := fun e => h (h2.trans e)
        simp [popHead, lookupStore, h, h2, hxo]
      · simp [popHead, lookupStore, h, h2, ih]

theorem flagOf_popHead (l : List (Nat × ObsBehavior)) (o x : Nat) :
    flagOf (popHead l o) x = flagOf l x := by
  unfold flagOf
  rw [(lookup_popHead_flags l o x).1, (lookup_popHead_flags l o x).2]

theorem all_tail {α : Type} (p : α → Bool) (l : List α) (h : l.all p = true) :
    l.tail.all p = true := by
  cases l with
  | nil => exact h
  | cons a rest => exact (List.all_cons .. ▸ h |> Bool.and_elim_right)

theorem storeSubFree_popHead (l : List (Nat × ObsBehavior)) (o : Nat)
    (h : storeSubFree l = true) : storeSubFree (popHead l o) = true := by
  induction l with
  | nil => exact h
  | cons p rest ih =>
    unfold storeSubFree at h
    rw [List.all_cons, Bool.and_eq_true] at h
    by_cases ho : p.1 = o
    · unfold popHead storeSubFree
      rw [if_pos ho, List.all_cons, Bool.and_eq_true]
      refine ⟨?_, h.2⟩
      unfold subFreeBeh at h ⊢
      exact all_tail _ _ h.1
    · unfold popHead storeSubFree
      rw [if_neg ho, List.all_cons, Bool.and_eq_true]
      exact ⟨h.1, ih h.2⟩

theorem subFreeBeh_lookup (l : List (Nat × ObsBehavior)) (o : Nat)
    (h : storeSubFree l = true) : subFreeBeh (lookupStore l o) = true := by
  induction l with
  | nil => rfl
  | cons p rest ih =>
    unfold storeSubFree at h
    rw [List.all_cons, Bool.and_eq_true] at h
    unfold lookupStore
    by_cases ho : p.1 = o
    · rw [if_pos ho]; exact h.1
    · rw [if_neg ho]; exact ih h.2

theorem subFreeActs_headD (b : ObsBehavior) (h : subFreeBeh b = true) :
    subFreeActs (b.scripts.headD []) = true := by
  unfold subFreeBeh at h
  cases hs : b.scripts with
  | nil => rfl
  | cons s rest =>
    rw [hs, List.all_cons, Bool.and_eq_true] at h
    exact h.1

/-- `obsPassLog` only depends on the flags of the snapshot's observers. -/
theorem obsPassLog_congr (fl gl : Nat → Bool × Bool) (r : Cancel)
    (snap : List Nat) (h : ∀ x, fl x = gl x) :
    obsPassLog fl r snap = obsPassLog gl r snap := by
  induction snap with
  | nil => rfl
  | cons o rest ih =>
    unfold obsPassLog at ih ⊢
    rw [List.flatMap_cons, List.flatMap_cons, ih]
    unfold passElem
    rw [h o]

/-- Re-entrant actions that never subscribe leave the store, reason and
fresh-identity counter unchanged, produce no events, and only remove
observers. -/
theorem acts_subfree : ∀ (f : Nat) (env : List ObsBehavior)
    (acts : List ScriptAct) (st : TokenSt) (out : TokenSt × List Ev),
    subFreeActs acts = true → exec f env (Req.actsR acts) st = some out →
    out.1.store = st.store ∧ out.1.reason = st.reason ∧
      out.1.nextId = st.nextId ∧ out.2 = [] := by
  intro f
  induction f with
  | zero => intro env acts st out hsf h; rw [exec_zero] at h; exact Option.noConfusion h
  | succ f ih =>
    intro env acts st out hsf h
    cases acts with
    | nil =>
      rw [exec_acts_nil] at h
      simp only [Option.some.injEq] at h
      subst h
      exact ⟨rfl, rfl, rfl, rfl⟩
    | cons a rest =>
      cases a with
      | subAct i =>
        unfold subFreeActs at hsf
        rw [List.all_cons] at hsf
        exact absurd hsf (by simp [subFreeAct])
      | unsubAct x =>
        unfold subFreeActs at hsf
        rw [List.all_cons, Bool.and_eq_true] at hsf
        rw [exec_acts_unsub] at h
        have hh := ih env rest _ out hsf.2 h
        exact hh

/-- Characterization of the dispatch loop when no observer callback
re-entrantly subscribes: the event log is exactly one `next` (with the reason)
and one `complete` per snapshot entry, in snapshot order, with host error
reports interleaved for throwing callbacks; the reason, fresh-identity counter
and the observers' throw flags are unchanged. -/
theorem deliver_subfree : ∀ (f : Nat) (env : List ObsBehavior)
    (snap : List Nat) (st : TokenSt) (out : TokenSt × List Ev) (r : Cancel),
    storeSubFree st.store = true → st.reason = some r →
    exec f env (Req.deliverR snap) st = some out →
    out.2 = obsPassLog (flagOf st.store) r snap ∧ out.1.reason = some r ∧
      out.1.nextId = st.nextId ∧ storeSubFree out.1.store = true ∧
      (∀ x, flagOf out.1.store x = flagOf st.store x) := by
  intro f
  induction f with
  | zero => intro env snap st out r hsf hr h; rw [exec_zero] at h; exact Option.noConfusion h
  | succ f ih =>
    intro env snap st out r hsf hr h
    cases snap with
    | nil =>
      rw [exec_deliver_nil] at h
      simp only [Option.some.injEq] at h
      subst h
      exact ⟨by simp [obsPassLog], hr, rfl, hsf, fun x => rfl⟩
    | cons o rest =>
      rw [exec_deliver_cons] at h
      cases heq1 : exec f env
          (Req.actsR ((lookupStore st.store o).scripts.headD []))
          { st with store := popHead st.store o } with
      | none => rw [heq1] at h; exact Option.noConfusion h
      | some p1 =>
        obtain ⟨st2, alog⟩ := p1
        rw [heq1] at h
        dsimp only at h
        cases heq2 : exec f env (Req.deliverR rest) st2 with
        | none => rw [heq2] at h; exact Option.noConfusion h
        | some p2 =>
          obtain ⟨st3, rlog⟩ := p2
          rw [heq2] at h
          dsimp only at h
          simp only [Option.some.injEq] at h
          subst h
          have hacts : subFreeActs ((lookupStore st.store o).scripts.headD []) = true :=
            subFreeActs_headD _ (subFreeBeh_lookup _ _ hsf)
          obtain ⟨hstore2, hreason2, hnext2, halog⟩ := acts_subfree f env _ _ _ hacts heq1
          have hstore2' : st2.store = popHead st.store o := hstore2
          have hsf2 : storeSubFree st2.store = true := by
            rw [hstore2']; exact storeSubFree_popHead _ _ hsf
          have hr2 : st2.reason = some r := by
            rw [hreason2]; exact hr
          obtain ⟨hlog3, hreason3, hnext3, hsf3, hflag3⟩ :=
            ih env rest st2 (st3, rlog) r hsf2 hr2 heq2
          have hflag2 : ∀ x, flagOf st2.store x = flagOf st.store x := by
            intro x; rw [hstore2']; exact flagOf_popHead _ _ _
          have halog2 : alog = [] := halog
          have hrl : rlog = obsPassLog (flagOf st.store) r rest := by
            have hlog3a : rlog = obsPassLog (flagOf st2.store) r rest := hlog3
            rw [hlog3a]
            exact obsPassLog_congr _ _ _ _ hflag2
          refine ⟨?_, hreason3, ?_, hsf3, fun x => (hflag3 x).trans (hflag2 x)⟩
          · dsimp only
            rw [halog2, hrl, hr]
            simp [obsPassLog, passElem, flagOf, List.flatMap_cons]
          · have hnext3a : st3.nextId = st2.nextId := hnext3
            have hnext2a : st2.nextId = st.nextId := hnext2
            dsimp only
            rw [hnext3a, hnext2a]

/-- `_dispatch` on a cancelled token whose observers never re-entrantly
subscribe: the log is exactly the per-observer next/complete (plus host error
reports) pass over the snapshot, and the set ends empty. -/
theorem dispatch_subfree (f : Nat) (env : List ObsBehavior) (st : TokenSt)
    (out : TokenSt × List Ev) (r : Cancel)
    (hsf : storeSubFree st.store = true) (hr : st.reason = some r)
    (h : exec f env Req.dispatchR st = some out) :
    out.2 = obsPassLog (flagOf st.store) r st.observers ∧
      out.1.observers = [] ∧ out.1.reason = some r ∧
      out.1.nextId = st.nextId ∧ storeSubFree out.1.store = true := by
  cases f with
  | zero => rw [exec_zero] at h; exact Option.noConfusion h
  | succ f =>
    rw [exec_dispatch] at h
    cases heq : exec f env (Req.deliverR st.observers) st with
    | none => rw [heq] at h; exact Option.noConfusion h
    | some p =>
      obtain ⟨st1, log⟩ := p
      rw [heq] at h
      dsimp only at h
      simp only [Option.some.injEq] at h
      subst h
      obtain ⟨hlog, hreason, hnext, hsf1, _⟩ :=
        deliver_subfree f env st.observers st (st1, log) r hsf hr heq
      exact ⟨hlog, rfl, hreason, hnext, hsf1⟩

/-! ### Counting deliveries -/

theorem countNext_append (x : Nat) (l1 l2 : List Ev) :
    countNext x (l1 ++ l2) = countNext x l1 + countNext x l2 := by
  induction l1 with
  | nil => simp [countNext]
  | cons e rest ih => cases e <;> simp [countNext, ih] <;> omega

theorem countComplete_append (x : Nat) (l1 l2 : List Ev) :
    countComplete x (l1 ++ l2) = countComplete x l1 + countComplete x l2 := by
  induction l1 with
  | nil => simp [countComplete]
  | cons e rest ih => cases e <;> simp [countComplete, ih] <;> omega

theorem countNext_passElem (fl : Nat → Bool × Bool) (r : Cancel) (o x : Nat) :
    countNext x (passElem fl r o) = if o = x then 1 else 0 := by
  unfold passElem
  cases (fl o).1 <;> cases (fl o).2 <;> simp [countNext]

theorem countComplete_passElem (fl : Nat → Bool × Bool) (r : Cancel) (o x : Nat) :
    countComplete x (passElem fl r o) = if o = x then 1 else 0 := by
  unfold passElem
  cases (fl o).1 <;> cases (fl o).2 <;> simp [countComplete]

theorem countNext_obsPassLog (fl : Nat → Bool × Bool) (r : Cancel)
    (snap : List Nat) (x : Nat) :
    countNext x (obsPassLog fl r snap) = snap.count x := by
  induction snap with
  | nil => simp [obsPassLog, countNext]
  | cons o rest ih =>
    have h1 : obsPassLog fl r (o :: rest) = passElem fl r o ++ obsPassLog fl r rest := by
      unfold obsPassLog; rw [List.flatMap_cons]
    rw [h1, countNext_append, countNext_passElem, ih]
    by_cases hx : o = x
    · subst hx; simp [List.count_cons]; omega
    · simp [List.count_cons, hx]

theorem countComplete_obsPassLog (fl : Nat → Bool × Bool) (r : Cancel)
    (snap : List Nat) (x : Nat) :
    countComplete x (obsPassLog fl r snap) = snap.count x := by
  induction snap with
  | nil => simp [obsPassLog, countComplete]
  | cons o rest ih =>
    have h1 : obsPassLog fl r (o :: rest) = passElem fl r o ++ obsPassLog fl r rest := by
      unfold obsPassLog; rw [List.flatMap_cons]
    rw [h1, countComplete_append, countComplete_passElem, ih]
    by_cases hx : o = x
    · subst hx; simp [List.count_cons]; omega
    · simp [List.count_cons, hx]

theorem subFreeBeh_getD (env : List ObsBehavior) (i : Nat)
    (henv : noSubEnv env = true) : subFreeBeh (env.getD i inertBeh) = true := by
  rw [List.getD_eq_getElem?_getD]
  cases hg : env[i]? with
  | none => simp [hg]; rfl
  | some b =>
    simp only [hg, Option.getD_some]
    have hb : b ∈ env := by
      have := List.getElem?_eq_some_iff.1 hg
      obtain ⟨hlt, heq⟩ := this
      exact heq ▸ List.getElem_mem hlt
    exact List.all_eq_true.1 henv b hb

/-- `subscribe` on a pending token just registers the fresh observer. -/
theorem subscribe_pending (f : Nat) (env : List ObsBehavior) (beh : ObsBehavior)
    (st : TokenSt) (out : TokenSt × List Ev) (hr : st.reason = none)
    (h : exec f env (Req.subR beh) st = some out) :
    out = ({ st with
      observers := st.observers ++ [st.nextId],
      store := st.store ++ [(st.nextId, beh)],
      nextId := st.nextId + 1 }, []) := by
  cases f with
  | zero => rw [exec_zero] at h; exact Option.noConfusion h
  | succ f =>
    rw [exec_sub] at h
    dsimp only at h
    rw [hr] at h
    dsimp only at h
    simp only [Option.some.injEq] at h
    rw [hr]
    exact h.symm

/-- `subscribe` on a cancelled token registers the fresh observer and then
immediately runs `_dispatch`. -/
theorem subscribe_fired (f : Nat) (env : List ObsBehavior) (beh : ObsBehavior)
    (st : TokenSt) (out : TokenSt × List Ev) (c : Cancel)
    (hr : st.reason = some c)
    (h : exec (f + 1) env (Req.subR beh) st = some out) :
    exec f env Req.dispatchR { st with
      observers := st.observers ++ [st.nextId],
      store := st.store ++ [(st.nextId, beh)],
      nextId := st.nextId + 1 } = some out := by
  rw [exec_sub] at h
  dsimp only at h
  rw [hr] at h
  dsimp only at h
  rw [hr]
  exact h

theorem runOps_zero (env : List ObsBehavior) (ops : List Op) (st : TokenSt) :
    runOps 0 env ops st = none := rfl

theorem runOps_nil (f : Nat) (env : List ObsBehavior) (st : TokenSt) :
    runOps (f + 1) env [] st = some (st, []) := rfl

theorem runOps_cons (f : Nat) (env : List ObsBehavior) (op : Op)
    (rest : List Op) (st : TokenSt) :
    runOps (f + 1) env (op :: rest) st =
      match stepOp f env op st with
      | none => none
      | some (st1, log1) =>
        match runOps f env rest st1 with
        | none => none
        | some (st2, log2) => some (st2, log1 ++ log2) := rfl

/-- Invariant carried along a run in which no observer callback re-entrantly
subscribes: the observer set has no duplicates and consists of fresh,
not-yet-delivered identities, and the log so far contains at most one `next`
and one `complete` per observer. -/
structure DeliveryInv (st : TokenSt) (log : List Ev) : Prop where
  nodup : st.observers.Nodup
  fresh_obs : ∀ o ∈ st.observers, o < st.nextId
  undelivered : ∀ o ∈ st.observers,
    countNext o log = 0 ∧ countComplete o log = 0
  once : ∀ o, countNext o log ≤ 1 ∧ countComplete o log ≤ 1
  fresh_log : ∀ o, (countNext o log ≠ 0 ∨ countComplete o log ≠ 0) →
    o < st.nextId
  storeok : storeSubFree st.store = true

theorem deliveryInv_init : DeliveryInv initSt [] := by
  refine ⟨List.nodup_nil, ?_, ?_, ?_, ?_, rfl⟩
  · intro o ho; exact absurd ho (List.not_mem_nil o)
  · intro o ho; exact absurd ho (List.not_mem_nil o)
  · intro o; exact ⟨Nat.zero_le 1, Nat.zero_le 1⟩
  · intro o ho; rcases ho with ho | ho <;> exact absurd rfl ho

/-- Dispatching on a cancelled token preserves the run invariant. -/
theorem dispatch_inv (f : Nat) (env : List ObsBehavior) (st : TokenSt)
    (out : TokenSt × List Ev) (r : Cancel) (log0 : List Ev)
    (hr : st.reason = some r)
    (hinv : DeliveryInv st log0)
    (h : exec f env Req.dispatchR st = some out) :
    DeliveryInv out.1 (log0 ++ out.2) := by
  obtain ⟨hlog, hobs, _, hnext, hsf⟩ :=
    dispatch_subfree f env st out r hinv.storeok hr h
  have hcN : ∀ o, countNext o (log0 ++ out.2)
      = countNext o log0 + st.observers.count o := by
    intro o; rw [countNext_append, hlog, countNext_obsPassLog]
  have hcC : ∀ o, countComplete o (log0 ++ out.2)
      = countComplete o log0 + st.observers.count o := by
    intro o; rw [countComplete_append, hlog, countComplete_obsPassLog]
  refine ⟨?_, ?_, ?_, ?_, ?_, hsf⟩
  · rw [hobs]; exact List.nodup_nil
  · intro o ho; rw [hobs] at ho; exact absurd ho (List.not_mem_nil o)
  · intro o ho; rw [hobs] at ho; exact absurd ho (List.not_mem_nil o)
  · intro o
    rw [hcN o, hcC o]
    by_cases hm : o ∈ st.observers
    · have h0 := hinv.undelivered o hm
      have hc1 : st.observers.count o ≤ 1 :=
        List.nodup_iff_count_le_one.1 hinv.nodup o
      omega
    · have hc0 : st.observers.count o = 0 := List.count_eq_zero.2 hm
      have := hinv.once o
      omega
  · intro o hne
    rw [hcN o, hcC o] at hne
    rw [hnext]
    by_cases hm : o ∈ st.observers
    · exact hinv.fresh_obs o hm
    · have hc0 : st.observers.count o = 0 := List.count_eq_zero.2 hm
      rw [hc0] at hne
      refine hinv.fresh_log o ?_
      omega

/-- Appending a fresh observer preserves the run invariant's state conditions. -/
theorem registerInv (st : TokenSt) (log0 : List Ev) (beh : ObsBehavior)
    (hbeh : subFreeBeh beh = true) (hinv : DeliveryInv st log0) :
    DeliveryInv { st with
      observers := st.observers ++ [st.nextId],
      store := st.store ++ [(st.nextId, beh)],
      nextId := st.nextId + 1 } log0 := by
  have hnotin : st.nextId ∉ st.observers := by
    intro hm
    exact absurd (hinv.fresh_obs st.nextId hm) (Nat.lt_irrefl st.nextId)
  refine ⟨?_, ?_, ?_, hinv.once, ?_, ?_⟩
  · rw [List.nodup_append]
    refine ⟨hinv.nodup, List.nodup_singleton _, ?_⟩
    intro a ha hb
    rcases List.mem_singleton.1 hb with rfl
    exact hnotin ha
  · intro o ho
    rcases List.mem_append.1 ho with ho | ho
    · exact Nat.lt_succ_of_lt (hinv.fresh_obs o ho)
    · rcases List.mem_singleton.1 ho with rfl
      exact Nat.lt_succ_self _
  · intro o ho
    rcases List.mem_append.1 ho with ho | ho
    · exact hinv.undelivered o ho
    · rcases List.mem_singleton.1 ho with rfl
      constructor
      · by_cases hc : countNext st.nextId log0 = 0
        · exact hc
        · exact absurd (hinv.fresh_log st.nextId (Or.inl hc))
            (Nat.lt_irrefl st.nextId)
      · by_cases hc : countComplete st.nextId log0 = 0
        · exact hc
        · exact absurd (hinv.fresh_log st.nextId (Or.inr hc))
            (Nat.lt_irrefl st.nextId)
  · intro o hne
    exact Nat.lt_succ_of_lt (hinv.fresh_log o hne)
  · show storeSubFree (st.store ++ [(st.nextId, beh)]) = true
    have hsto := hinv.storeok
    unfold storeSubFree at hsto ⊢
    rw [List.all_append, Bool.and_eq_true]
    refine ⟨hsto, ?_⟩
    simp [List.all_cons, hbeh]

/-- A single public operation preserves the run invariant when the environment
contains no re-entrantly subscribing behavior. -/
theorem step_inv (f : Nat) (env : List ObsBehavior) (op : Op) (st : TokenSt)
    (out : TokenSt × List Ev) (log0 : List Ev)
    (henv : noSubEnv env = true) (hinv : DeliveryInv st log0)
    (h : stepOp f env op st = some out) :
    DeliveryInv out.1 (log0 ++ out.2) := by
  cases op with
  | unsubOp x =>
    unfold stepOp at h
    simp only [Option.some.injEq] at h
    subst h
    rw [List.append_nil]
    refine ⟨hinv.nodup.filter _, ?_, ?_, hinv.once, hinv.fresh_log, hinv.storeok⟩
    · intro o ho
      exact hinv.fresh_obs o (List.mem_filter.1 ho).1
    · intro o ho
      exact hinv.undelivered o (List.mem_filter.1 ho).1
  | triggerOp m =>
    unfold stepOp trigger at h
    cases hreas : st.reason with
    | some c =>
      rw [hreas] at h
      dsimp only at h
      simp only [Option.some.injEq] at h
      subst h
      rw [List.append_nil]
      exact hinv
    | none =>
      rw [hreas] at h
      dsimp only at h
      have hinv2 : DeliveryInv { st with reason := some (mkCancel m) } log0 :=
        ⟨hinv.nodup, hinv.fresh_obs, hinv.undelivered, hinv.once,
          hinv.fresh_log, hinv.storeok⟩
      exact dispatch_inv f env _ out (mkCancel m) log0 rfl hinv2 h
  | subOp i =>
    unfold stepOp at h
    dsimp only at h
    unfold subscribe at h
    have hbeh : subFreeBeh (env.getD i inertBeh) = true := subFreeBeh_getD env i henv
    cases hreas : st.reason with
    | none =>
      have hout := subscribe_pending f env _ st out hreas h
      subst hout
      rw [List.append_nil]
      exact registerInv st log0 _ hbeh hinv
    | some c =>
      cases f with
      | zero => rw [exec_zero] at h; exact Option.noConfusion h
      | succ g =>
        have hdis := subscribe_fired g env _ st out c hreas h
        have hinv1 := registerInv st log0 _ hbeh hinv
        exact dispatch_inv g env { st with
            observers := st.observers ++ [st.nextId],
            store := st.store ++ [(st.nextId, env.getD i inertBeh)],
            nextId := st.nextId + 1 } out c log0 hreas hinv1 hdis

/-- The run invariant holds after any completed sequence of public operations
whose observers never re-entrantly subscribe. -/
theorem runOps_inv : ∀ (ops : List Op) (f : Nat) (env : List ObsBehavior)
    (st : TokenSt) (log0 : List Ev) (out : TokenSt × List Ev),
    noSubEnv env = true → DeliveryInv st log0 →
    runOps f env ops st = some out →
    DeliveryInv out.1 (log0 ++ out.2) := by
  intro ops
  induction ops with
  | nil =>
    intro f env st log0 out henv hinv h
    cases f with
    | zero => rw [runOps_zero] at h; exact Option.noConfusion h
    | succ f =>
      rw [runOps_nil] at h
      simp only [Option.some.injEq] at h
      subst h
      rw [List.append_nil]
      exact hinv
  | cons op rest ih =>
    intro f env st log0 out henv hinv h
    cases f with
    | zero => rw [runOps_zero] at h; exact Option.noConfusion h
    | succ f =>
      rw [runOps_cons] at h
      cases heq1 : stepOp f env op st with
      | none => rw [heq1] at h; exact Option.noConfusion h
      | some p1 =>
        obtain ⟨st1, log1⟩ := p1
        rw [heq1] at h
        dsimp only at h
        cases heq2 : runOps f env rest st1 with
        | none => rw [heq2] at h; exact Option.noConfusion h
        | some p2 =>
          obtain ⟨st2, log2⟩ := p2
          rw [heq2] at h
          dsimp only at h
          simp only [Option.some.injEq] at h
          subst h
          have hstep := step_inv f env op st (st1, log1) log0 henv hinv heq1
          have hrest := ih f env st1 (log0 ++ log1) (st2, log2) henv hstep heq2
          dsimp only
          rw [← List.append_assoc]
          exact hrest

/-- One public operation preserves "cancelled implies no pending observers",
for arbitrary observer behaviors. -/
theorem step_cancelled_empty (f : Nat) (env : List ObsBehavior) (op : Op)
    (st : TokenSt) (out : TokenSt × List Ev)
    (hP : st.reason = none ∨ st.observers = [])
    (h : stepOp f env op st = some out) :
    out.1.reason = none ∨ out.1.observers = [] := by
  cases op with
  | unsubOp x =>
    unfold stepOp at h
    simp only [Option.some.injEq] at h
    subst h
    rcases hP with hP | hP
    · exact Or.inl hP
    · right
      dsimp only
      rw [hP]
      rfl
  | triggerOp m =>
    unfold stepOp trigger at h
    cases hreas : st.reason with
    | some c =>
      rw [hreas] at h
      dsimp only at h
      simp only [Option.some.injEq] at h
      subst h
      rcases hP with hP | hP
      · exact absurd hreas (hP ▸ (by simp))
      · exact Or.inr hP
    | none =>
      rw [hreas] at h
      dsimp only at h
      exact Or.inr (dispatch_clears f env _ out h)
  | subOp i =>
    unfold stepOp at h
    dsimp only at h
    unfold subscribe at h
    cases hreas : st.reason with
    | none =>
      have hout := subscribe_pending f env _ st out hreas h
      subst hout
      exact Or.inl hreas
    | some c =>
      cases f with
      | zero => rw [exec_zero] at h; exact Option.noConfusion h
      | succ g =>
        have hdis := subscribe_fired g env _ st out c hreas h
        exact Or.inr (dispatch_clears g env _ out hdis)

/-- Along any completed run, once the reason is set the observer set is empty
(for arbitrary observer behaviors, re-entrant subscribes included). -/
theorem runOps_cancelled_empty : ∀ (ops : List Op) (f : Nat)
    (env : List ObsBehavior) (st : TokenSt) (out : TokenSt × List Ev),
    (st.reason = none ∨ st.observers = []) →
    runOps f env ops st = some out →
    (out.1.reason = none ∨ out.1.observers = []) := by
  intro ops
  induction ops with
  | nil =>
    intro f env st out hP h
    cases f with
    | zero => rw [runOps_zero] at h; exact Option.noConfusion h
    | succ f =>
      rw [runOps_nil] at h
      simp only [Option.some.injEq] at h
      subst h
      exact hP
  | cons op rest ih =>
    intro f env st out hP h
    cases f with
    | zero => rw [runOps_zero] at h; exact Option.noConfusion h
    | succ f =>
      rw [runOps_cons] at h
      cases heq1 : stepOp f env op st with
      | none => rw [heq1] at h; exact Option.noConfusion h
      | some p1 =>
        obtain ⟨st1, log1⟩ := p1
        rw [heq1] at h
        dsimp only at h
        cases heq2 : runOps f env rest st1 with
        | none => rw [heq2] at h; exact Option.noConfusion h
        | some p2 =>
          obtain ⟨st2, log2⟩ := p2
          rw [heq2] at h
          dsimp only at h
          simp only [Option.some.injEq] at h
          subst h
          exact ih f env st1 (st2, log2)
            (step_cancelled_empty f env op st (st1, log1) hP heq1) heq2

/-- The reason a completed run ends with: the starting reason if already set,
otherwise the first trigger message of the sequence, wrapped as a `Cancel`. -/
def afterReason (r : Option Cancel) (ops : List Op) : Option Cancel :=
  match r with
  | some c => some c
  | none => (firstTrigger ops).map mkCancel

theorem firstTrigger_cons_trigger (m : JSVal) (rest : List Op) :
    firstTrigger (Op.triggerOp m :: rest) = some m := by
  simp [firstTrigger, List.filterMap_cons]

theorem firstTrigger_cons_sub (i : Nat) (rest : List Op) :
    firstTrigger (Op.subOp i :: rest) = firstTrigger rest := by
  simp [firstTrigger, List.filterMap_cons]

theorem firstTrigger_cons_unsub (o : Nat) (rest : List Op) :
    firstTrigger (Op.unsubOp o :: rest) = firstTrigger rest := by
  simp [firstTrigger, List.filterMap_cons]

theorem afterReason_some (c : Cancel) (ops : List Op) :
    afterReason (some c) ops = some c := rfl

theorem afterReason_none (ops : List Op) :
    afterReason none ops = (firstTrigger ops).map mkCancel := rfl

/-- Write-once: a completed run ends with reason `afterReason st.reason ops` —
the first trigger's message wins and nothing ever changes it. -/
theorem runOps_reason : ∀ (ops : List Op) (f : Nat) (env : List ObsBehavior)
    (st : TokenSt) (out : TokenSt × List Ev),
    runOps f env ops st = some out →
    out.1.reason = afterReason st.reason ops := by
  intro ops
  induction ops with
  | nil =>
    intro f env st out h
    cases f with
    | zero => rw [runOps_zero] at h; exact Option.noConfusion h
    | succ f =>
      rw [runOps_nil] at h
      simp only [Option.some.injEq] at h
      subst h
      unfold afterReason
      cases st.reason <;> simp [firstTrigger]
  | cons op rest ih =>
    intro f env st out h
    cases f with
    | zero => rw [runOps_zero] at h; exact Option.noConfusion h
    | succ f =>
      rw [runOps_cons] at h
      cases heq1 : stepOp f env op st with
      | none => rw [heq1] at h; exact Option.noConfusion h
      | some p1 =>
        obtain ⟨st1, log1⟩ := p1
        rw [heq1] at h
        dsimp only at h
        cases heq2 : runOps f env rest st1 with
        | none => rw [heq2] at h; exact Option.noConfusion h
        | some p2 =>
          obtain ⟨st2, log2⟩ := p2
          rw [heq2] at h
          dsimp only at h
          simp only [Option.some.injEq] at h
          subst h
          have hrest := ih f env st1 (st2, log2) heq2
          dsimp only at hrest ⊢
          cases op with
          | subOp i =>
            have hr1 : st1.reason = st.reason := by
              unfold stepOp at heq1
              dsimp only at heq1
              unfold subscribe at heq1
              exact exec_reason f env _ st (st1, log1) heq1
            rw [hrest, hr1]
            unfold afterReason
            cases st.reason <;> simp [firstTrigger_cons_sub]
          | unsubOp x =>
            have hr1 : st1.reason = st.reason := by
              unfold stepOp at heq1
              simp only [Option.some.injEq] at heq1
              injection heq1 with ha hb
              rw [← ha]
            rw [hrest, hr1]
            unfold afterReason
            cases st.reason <;> simp [firstTrigger_cons_unsub]
          | triggerOp m =>
            unfold stepOp at heq1
            dsimp only at heq1
            cases hreas : st.reason with
            | some c =>
              have hstep := trigger_fired f env m st c hreas
              rw [hstep] at heq1
              simp only [Option.some.injEq] at heq1
              injection heq1 with ha hb
              have hr1 : st1.reason = some c := by rw [← ha, hreas]
              rw [hrest, hr1, afterReason_some, afterReason_some]
            | none =>
              have hr1 : st1.reason = some (mkCancel m) :=
                (trigger_pending f env m st (st1, log1) hreas heq1).1
              rw [hrest, hr1, afterReason_some, afterReason_none,
                firstTrigger_cons_trigger]
              rfl

theorem lookupStore_append_fresh (l : List (Nat × ObsBehavior)) (k : Nat)
    (b : ObsBehavior) (h : ∀ p ∈ l, p.1 ≠ k) :
    lookupStore (l ++ [(k, b)]) k = b := by
  induction l with
  | nil => simp [lookupStore]
  | cons p rest ih =>
    rw [List.cons_append]
    unfold lookupStore
    rw [if_neg (h p (List.mem_cons_self p rest))]
    exact ih (fun q hq => h q (List.mem_cons_of_mem p hq))

theorem storeSubFree_append_one (l : List (Nat × ObsBehavior)) (k : Nat)
    (b : ObsBehavior) (hl : storeSubFree l = true) (hb : subFreeBeh b = true) :
    storeSubFree (l ++ [(k, b)]) = true := by
  unfold storeSubFree at hl ⊢
  rw [List.all_append, Bool.and_eq_true]
  exact ⟨hl, by simp [List.all_cons, hb]⟩

/-- Subscribing after cancellation, with an empty observer set and an observer
that does not re-entrantly subscribe: the events of the `subscribe` call are
exactly `next` with the stored reason, then `complete` (with host error
reports if the callbacks throw), and the set ends empty. -/
theorem subscribe_fired_log (f : Nat) (env : List ObsBehavior)
    (beh : ObsBehavior) (st : TokenSt) (out : TokenSt × List Ev) (r : Cancel)
    (hr : st.reason = some r) (hobs : st.observers = [])
    (hfresh : storeFresh st = true) (hsf : storeSubFree st.store = true)
    (hbeh : subFreeBeh beh = true)
    (h : subscribe f env beh st = some out) :
    out.2 = Ev.nextEv st.nextId r ::
        ((if beh.nextThrows then [Ev.errEv st.nextId] else [])
          ++ (Ev.completeEv st.nextId ::
              (if beh.completeThrows then [Ev.errEv st.nextId] else [])))
      ∧ out.1.observers = [] := by
  unfold subscribe at h
  cases f with
  | zero => rw [exec_zero] at h; exact Option.noConfusion h
  | succ g =>
    have hdis := subscribe_fired g env beh st out r hr h
    have hsf1 : storeSubFree (st.store ++ [(st.nextId, beh)]) = true :=
      storeSubFree_append_one _ _ _ hsf hbeh
    obtain ⟨hlog, hobs1, _, _, _⟩ := dispatch_subfree g env { st with
        observers := st.observers ++ [st.nextId],
        store := st.store ++ [(st.nextId, beh)],
        nextId := st.nextId + 1 } out r hsf1 hr hdis
    refine ⟨?_, hobs1⟩
    rw [hlog]
    have hsnap : ({ st with
        observers := st.observers ++ [st.nextId],
        store := st.store ++ [(st.nextId, beh)],
        nextId := st.nextId + 1 } : TokenSt).observers = [st.nextId] := by
      dsimp only
      rw [hobs]
      rfl
    rw [hsnap]
    have hflag : flagOf (st.store ++ [(st.nextId, beh)]) st.nextId
        = (beh.nextThrows, beh.completeThrows) := by
      unfold flagOf
      rw [lookupStore_append_fresh]
      intro p hp
      have := List.all_eq_true.1 hfresh p hp
      have hlt : p.1 < st.nextId := of_decide_eq_true this
      omega
    show obsPassLog (flagOf (st.store ++ [(st.nextId, beh)])) r [st.nextId] = _
    unfold obsPassLog
    rw [List.flatMap_cons]
    unfold passElem
    rw [hflag]
    simp

/-- Subscribing after cancellation always replays the reason — a `next`
carrying the reason and a `complete` are delivered to the fresh observer
within the `subscribe` call itself, and the observer set ends empty — no
matter what the observer's callbacks do. -/
theorem subscribe_replay_mem (f : Nat) (env : List ObsBehavior)
    (beh : ObsBehavior) (st : TokenSt) (out : TokenSt × List Ev) (r : Cancel)
    (hr : st.reason = some r)
    (h : subscribe f env beh st = some out) :
    Ev.nextEv st.nextId r ∈ out.2 ∧ Ev.completeEv st.nextId ∈ out.2 ∧
      out.1.observers = [] := by
  unfold subscribe at h
  cases f with
  | zero => rw [exec_zero] at h; exact Option.noConfusion h
  | succ g =>
    have hdis := subscribe_fired g env beh st out r hr h
    have hclear := dispatch_clears g env _ out hdis
    cases g with
    | zero => rw [exec_zero] at hdis; exact Option.noConfusion hdis
    | succ g2 =>
      rw [exec_dispatch] at hdis
      cases heq : exec g2 env
          (Req.deliverR ({ st with
            observers := st.observers ++ [st.nextId],
            store := st.store ++ [(st.nextId, beh)],
            nextId := st.nextId + 1 } : TokenSt).observers)
          { st with
            observers := st.observers ++ [st.nextId],
            store := st.store ++ [(st.nextId, beh)],
            nextId := st.nextId + 1 } with
      | none => rw [heq] at hdis; exact Option.noConfusion hdis
      | some p =>
        obtain ⟨st1, log⟩ := p
        rw [heq] at hdis
        dsimp only at hdis
        simp only [Option.some.injEq] at hdis
        have hmem := deliver_mem g2 env _ _ _ heq st.nextId
          (by simp)
        have hget : ({ st with
            observers := st.observers ++ [st.nextId],
            store := st.store ++ [(st.nextId, beh)],
            nextId := st.nextId + 1 } : TokenSt).reason.getD (Cancel.mk "") = r := by
          dsimp only
          rw [hr]
          rfl
        rw [hget] at hmem
        have hout2 : out.2 = log := by rw [← hdis]
        rw [hout2]
        exact ⟨hmem.1, hmem.2, hclear⟩

/-! ### Race combinator lemmas -/

theorem raceFold_none (l : List (Option Cancel)) :
    ∀ acc, (∀ x ∈ l, x = none) →
    l.foldl (fun acc r => match r with
      | none => acc
      | some c => raceTrigger acc (JSVal.cancelObj c.msg)) acc = acc := by
  induction l with
  | nil => intro acc _; rfl
  | cons x rest ih =>
    intro acc hx
    have hx0 : x = none := hx x (List.mem_cons_self x rest)
    subst hx0
    exact ih acc (fun y hy => hx y (List.mem_cons_of_mem _ hy))

/-- A race over pending inputs starts pending. -/
theorem raceInit_pending (n : Nat) :
    (raceInit (List.replicate n none)).raceReason = none := by
  unfold raceInit
  exact raceFold_none _ none (fun x hx => List.eq_of_mem_replicate hx)

/-- Once the race token has a reason, firing further inputs never changes it. -/
theorem fireInput_keeps (w : RaceWorld) (j : Nat) (m : JSVal) (c : Cancel)
    (hc : w.raceReason = some c) : (fireInput w j m).raceReason = some c := by
  unfold fireInput
  cases hg : w.inputReasons[j]? with
  | none => exact hc
  | some x =>
    cases x with
    | none =>
      dsimp only
      rw [hc]
      rfl
    | some d => exact hc

/-- Firing a pending input of an all-pending race: the race token's reason
becomes the string coercion of the input's `Cancel` object. -/
theorem fireInput_first (n i : Nat) (m : JSVal) (hi : i < n) :
    (fireInput (raceInit (List.replicate n none)) i m).raceReason
      = some (Cancel.mk "[object Object]") := by
  unfold fireInput
  have hg : (raceInit (List.replicate n none)).inputReasons[i]? = some none := by
    show (List.replicate n (none : Option Cancel))[i]? = some none
    rw [List.getElem?_replicate, if_pos hi]
  rw [hg]
  dsimp only
  rw [raceInit_pending]
  rfl

/-! ### Constructor setup-function lemmas -/

theorem runFn_nil (f : Nat) (env : List ObsBehavior) (st : TokenSt) :
    runFn f env [] st = some (st, [], false) := rfl

theorem runFn_throw_cons (f : Nat) (env : List ObsBehavior) (rest : List FnAct)
    (st : TokenSt) :
    runFn f env (FnAct.throwAct :: rest) st = some (st, [], true) := rfl

theorem runFn_trigger_cons (f : Nat) (env : List ObsBehavior) (m : JSVal)
    (rest : List FnAct) (st : TokenSt) :
    runFn f env (FnAct.triggerAct m :: rest) st =
      match trigger f env m st with
      | none => none
      | some (st1, log1) =>
        match runFn f env rest st1 with
        | none => none
        | some (st2, log2, thr) => some (st2, log1 ++ log2, thr) := rfl

theorem firstFnTrigger_nil : firstFnTrigger [] = none := rfl

theorem firstFnTrigger_cons_trigger (m : JSVal) (l : List FnAct) :
    firstFnTrigger (FnAct.triggerAct m :: l) = some m := by
  simp [firstFnTrigger, List.filterMap_cons]

/-- Once the reason is set, the setup function's remaining trigger calls are
no-ops and a throw in it still surfaces. -/
theorem runFn_reason_some : ∀ (acts : List FnAct) (f : Nat)
    (env : List ObsBehavior) (st : TokenSt) (out : TokenSt × List Ev × Bool)
    (c : Cancel), st.reason = some c → runFn f env acts st = some out →
    out.1.reason = some c ∧ (FnAct.throwAct ∈ acts → out.2.2 = true) := by
  intro acts
  induction acts with
  | nil =>
    intro f env st out c hc h
    rw [runFn_nil] at h
    simp only [Option.some.injEq] at h
    subst h
    exact ⟨hc, fun hm => absurd hm (List.not_mem_nil _)⟩
  | cons a rest ih =>
    intro f env st out c hc h
    cases a with
    | throwAct =>
      rw [runFn_throw_cons] at h
      simp only [Option.some.injEq] at h
      subst h
      exact ⟨hc, fun _ => rfl⟩
    | triggerAct m =>
      rw [runFn_trigger_cons] at h
      rw [trigger_fired f env m st c hc] at h
      dsimp only at h
      cases heq : runFn f env rest st with
      | none => rw [heq] at h; exact Option.noConfusion h
      | some p =>
        obtain ⟨st2, log2, thr⟩ := p
        rw [heq] at h
        dsimp only at h
        simp only [Option.some.injEq] at h
        subst h
        obtain ⟨h1, h2⟩ := ih f env st (st2, log2, thr) c hc heq
        refine ⟨h1, fun hm => ?_⟩
        rcases List.mem_cons.1 hm with hm | hm
        · exact absurd hm (by simp)
        · exact h2 hm

/-- If the setup function throws, the exception surfaces from the constructor,
and any trigger call made before the throw has still cancelled the token with
the first such message. -/
theorem runFn_throw_prefix : ∀ (pre : List FnAct) (f : Nat)
    (env : List ObsBehavior) (post : List FnAct) (st : TokenSt)
    (out : TokenSt × List Ev × Bool),
    FnAct.throwAct ∉ pre → st.reason = none →
    runFn f env (pre ++ FnAct.throwAct :: post) st = some out →
    out.2.2 = true ∧ out.1.reason = (firstFnTrigger pre).map mkCancel := by
  intro pre
  induction pre with
  | nil =>
    intro f env post st out _ hr h
    rw [List.nil_append, runFn_throw_cons] at h
    simp only [Option.some.injEq] at h
    subst h
    exact ⟨rfl, by rw [firstFnTrigger_nil]; simp [hr]⟩
  | cons a pre ih =>
    intro f env post st out hnm hr h
    cases a with
    | throwAct => exact absurd (List.mem_cons_self _ _) hnm
    | triggerAct m =>
      rw [List.cons_append, runFn_trigger_cons] at h
      cases heq1 : trigger f env m st with
      | none => rw [heq1] at h; exact Option.noConfusion h
      | some p1 =>
        obtain ⟨st1, log1⟩ := p1
        rw [heq1] at h
        dsimp only at h
        cases heq2 : runFn f env (pre ++ FnAct.throwAct :: post) st1 with
        | none => rw [heq2] at h; exact Option.noConfusion h
        | some p2 =>
          obtain ⟨st2, log2, thr⟩ := p2
          rw [heq2] at h
          dsimp only at h
          simp only [Option.some.injEq] at h
          subst h
          have hr1 : st1.reason = some (mkCancel m) :=
            (trigger_pending f env m st (st1, log1) hr heq1).1
          obtain ⟨h1, h2⟩ := runFn_reason_some _ f env st1 (st2, log2, thr)
            (mkCancel m) hr1 heq2
          refine ⟨?_, ?_⟩
          · exact h2 (by simp)
          · rw [firstFnTrigger_cons_trigger]
            exact h1

/-! ## Claim theorems -/

/-- Claim C1, counterexample: `race([A, B])` with both inputs pending; firing
input 0 with message "a-msg" leaves the race token's reason with message
"[object Object]" — not "a-msg" as the claim states — because the input's
dispatch passes its `Cancel` object (not the message) to the race trigger,
which re-wraps it with `String(·)`. -/
theorem race_message_cex :
    (fireInput (raceInit [none, none]) 0 (JSVal.str "a-msg")).raceReason
        ≠ some (Cancel.mk "a-msg") ∧
      (fireInput (raceInit [none, none]) 0 (JSVal.str "a-msg")).raceReason
        = some (Cancel.mk "[object Object]") := by
  constructor
  · decide
  · rfl

/-- Claim C1, amended: for a race over `n` pending inputs, the race token is
pending until the first input fires; when input `i` fires (with any message),
the race token fires at that moment, but its reason's message is the string
coercion of the firing input's `Cancel` object, `"[object Object]"`, rather
than the input's message; any later firing leaves the race reason unchanged. -/
theorem race_first_wins_amended (n i j : Nat) (m m2 : JSVal) (hi : i < n) :
    (raceInit (List.replicate n none)).raceReason = none ∧
      (fireInput (raceInit (List.replicate n none)) i m).raceReason
        = some (Cancel.mk "[object Object]") ∧
      (fireInput (fireInput (raceInit (List.replicate n none)) i m) j m2).raceReason
        = some (Cancel.mk "[object Object]") :=
  ⟨raceInit_pending n, fireInput_first n i m hi,
    fireInput_keeps _ j m2 _ (fireInput_first n i m hi)⟩

theorem race_first_wins_amended_w :
    (raceInit (List.replicate 3 (none : Option Cancel))).raceReason = none ∧
      (fireInput (raceInit (List.replicate 3 none)) 0 (JSVal.str "a")).raceReason
        = some (Cancel.mk "[object Object]") ∧
      (fireInput (fireInput (raceInit (List.replicate 3 none)) 0 (JSVal.str "a"))
          1 (JSVal.str "b")).raceReason
        = some (Cancel.mk "[object Object]") :=
  race_first_wins_amended 3 0 1 (JSVal.str "a") (JSVal.str "b") (by decide)

/-- Claim C2, counterexample: observer 0 subscribes (with behavior template 0,
whose first `next` callback re-entrantly subscribes a fresh observer), then the
token is triggered.  The re-entrant `subscribe` finds the reason already set
and re-runs `_dispatch` over the not-yet-cleared set, so observer 0 receives
the `next` notification twice — refuting "no registered observer ever receives
the next notification more than once" for sequences with re-entrant
subscribes. -/
theorem dup_next_reentrant_cex :
    Option.map (fun p => countNext 0 p.2)
      (runOps 30 [ObsBehavior.mk false false [[ScriptAct.subAct 1]], inertBeh]
        [Op.subOp 0, Op.triggerOp (JSVal.str "m")] initSt) = some 2 := by
  decide

/-- Claim C2, amended: for every sequence of subscribe, trigger and
unsubscribe operations in which no observer's notification callback
re-entrantly subscribes to the token (unsubscribing from within callbacks and
throwing callbacks remain allowed), no observer receives `next` more than once
or `complete` more than once.  (A re-entrant subscribe after cancellation
re-runs `_dispatch` over the not-yet-cleared set and can re-deliver, as the
counterexample shows.) -/
theorem no_dup_delivery_amended (f : Nat) (env : List ObsBehavior)
    (ops : List Op) (out : TokenSt × List Ev)
    (henv : noSubEnv env = true)
    (h : runOps f env ops initSt = some out) :
    ∀ o, countNext o out.2 ≤ 1 ∧ countComplete o out.2 ≤ 1 := by
  have hinv := runOps_inv ops f env initSt [] out henv deliveryInv_init h
  intro o
  have h1 := hinv.once o
  rw [List.nil_append] at h1
  exact h1

theorem no_dup_delivery_amended_w :
    countNext 0 [Ev.nextEv 0 (Cancel.mk "m"), Ev.completeEv 0,
        Ev.nextEv 1 (Cancel.mk "m"), Ev.completeEv 1] ≤ 1 ∧
      countComplete 0 [Ev.nextEv 0 (Cancel.mk "m"), Ev.completeEv 0,
        Ev.nextEv 1 (Cancel.mk "m"), Ev.completeEv 1] ≤ 1 :=
  no_dup_delivery_amended 30 [inertBeh]
    [Op.subOp 0, Op.triggerOp (JSVal.str "m"), Op.subOp 0, Op.unsubOp 0]
    (TokenSt.mk (some (Cancel.mk "m")) []
      [(0, inertBeh), (1, inertBeh)] 2,
      [Ev.nextEv 0 (Cancel.mk "m"), Ev.completeEv 0,
        Ev.nextEv 1 (Cancel.mk "m"), Ev.completeEv 1])
    (by decide) (by decide) 0

/-- Claim C3: (a) along every completed run from a fresh token, once the
reason is non-undefined the observer set is empty — this covers the state
after every public operation, for arbitrary observer behaviors, re-entrant
subscribes included; (b) a `subscribe` on a cancelled token synchronously
replays the reason — the fresh observer receives `next` with the stored reason
and `complete` within the `subscribe` call — and the observer set is empty
when `subscribe` returns, so the new observer is not retained in the set. -/
theorem cancelled_set_empty_replay :
    (∀ (f : Nat) (env : List ObsBehavior) (ops : List Op)
      (out : TokenSt × List Ev),
      runOps f env ops initSt = some out →
      out.1.reason ≠ none → out.1.observers = []) ∧
    (∀ (f : Nat) (env : List ObsBehavior) (beh : ObsBehavior) (st : TokenSt)
      (out : TokenSt × List Ev) (r : Cancel), st.reason = some r →
      subscribe f env beh st = some out →
      Ev.nextEv st.nextId r ∈ out.2 ∧ Ev.completeEv st.nextId ∈ out.2 ∧
        out.1.observers = [] ∧ st.nextId ∉ out.1.observers) := by
  constructor
  · intro f env ops out h hne
    rcases runOps_cancelled_empty ops f env initSt out (Or.inl rfl) h with hc | hc
    · exact absurd hc hne
    · exact hc
  · intro f env beh st out r hr h
    obtain ⟨h1, h2, h3⟩ := subscribe_replay_mem f env beh st out r hr h
    refine ⟨h1, h2, h3, ?_⟩
    rw [h3]
    exact List.not_mem_nil _

theorem cancelled_set_empty_replay_w :
    (TokenSt.mk (some (Cancel.mk "x")) [] [] 0, ([] : List Ev)).1.observers
        = [] ∧
      Ev.nextEv 0 (Cancel.mk "x")
          ∈ [Ev.nextEv 0 (Cancel.mk "x"), Ev.completeEv 0] ∧
        (0 : Nat) ∉ ([] : List Nat) :=
  ⟨cancelled_set_empty_replay.1 5 [] [Op.triggerOp (JSVal.str "x")]
      (TokenSt.mk (some (Cancel.mk "x")) [] [] 0, []) (by decide) (by decide),
    (cancelled_set_empty_replay.2 4 [] inertBeh
      (TokenSt.mk (some (Cancel.mk "x")) [] [] 0)
      (TokenSt.mk (some (Cancel.mk "x")) [] [(0, inertBeh)] 1,
        [Ev.nextEv 0 (Cancel.mk "x"), Ev.completeEv 0])
      (Cancel.mk "x") rfl (by decide)).1,
    (cancelled_set_empty_replay.2 4 [] inertBeh
      (TokenSt.mk (some (Cancel.mk "x")) [] [] 0)
      (TokenSt.mk (some (Cancel.mk "x")) [] [(0, inertBeh)] 1,
        [Ev.nextEv 0 (Cancel.mk "x"), Ev.completeEv 0])
      (Cancel.mk "x") rfl (by decide)).2.2.2⟩

/-- Claim C4: write-once, first-writer-wins.  Every completed run from a fresh
token ends with the reason equal to the first trigger message of the sequence
(wrapped as a `Cancel`), and `none` when the sequence contains no trigger:
later trigger calls are no-ops, the reason is undefined before the first
trigger, and no operation ever changes it afterwards. -/
theorem reason_write_once (f : Nat) (env : List ObsBehavior) (ops : List Op)
    (out : TokenSt × List Ev) (h : runOps f env ops initSt = some out) :
    out.1.reason = (firstTrigger ops).map mkCancel :=
  runOps_reason ops f env initSt out h

theorem reason_write_once_w :
    (TokenSt.mk (some (Cancel.mk "a")) [] [] 0, ([] : List Ev)).1.reason
      = (firstTrigger [Op.triggerOp (JSVal.str "a"),
          Op.triggerOp (JSVal.str "b")]).map mkCancel :=
  reason_write_once 5 [] [Op.triggerOp (JSVal.str "a"), Op.triggerOp (JSVal.str "b")]
    (TokenSt.mk (some (Cancel.mk "a")) [] [] 0, []) (by decide)

/-- Claim C5, counterexample: observers 0 and 1 register before cancellation;
observer 0's `next` callback re-entrantly subscribes a fresh observer, which
re-runs `_dispatch` over the not-yet-cleared set, so observer 0 — registered
before cancellation — receives `next` twice during the trigger call, refuting
"each such observer receives exactly one next delivery". -/
theorem dispatch_exactly_once_cex :
    Option.map (fun p => countNext 0 p.2)
      (runOps 30 [ObsBehavior.mk false false [[ScriptAct.subAct 1]], inertBeh]
        [Op.subOp 0, Op.subOp 1, Op.triggerOp (JSVal.str "x")] initSt)
      = some 2 := by
  decide

/-- Claim C5, amended: when no observer callback re-entrantly subscribes
(unsubscribing during the pass and throwing callbacks remain allowed), a
dispatch pass on a cancelled token delivers exactly along the snapshot of the
observer set taken at pass start: the event log is precisely one `next`
carrying the reason followed by one `complete` per snapshot observer, in
registration order (with host error reports interleaved for throwing
callbacks), unaffected by removals performed during the pass; afterwards the
observer set is cleared.  In particular, when the snapshot has no duplicates,
every snapshot observer is delivered to exactly once. -/
theorem dispatch_snapshot_amended (f : Nat) (env : List ObsBehavior)
    (st : TokenSt) (out : TokenSt × List Ev) (r : Cancel)
    (hsf : storeSubFree st.store = true) (hr : st.reason = some r)
    (h : dispatch f env st = some out) :
    out.2 = obsPassLog (flagOf st.store) r st.observers ∧
      out.1.observers = [] ∧
      (st.observers.Nodup → ∀ o ∈ st.observers,
        countNext o out.2 = 1 ∧ countComplete o out.2 = 1) := by
  unfold dispatch at h
  obtain ⟨hlog, hobs, _, _, _⟩ := dispatch_subfree f env st out r hsf hr h
  refine ⟨hlog, hobs, ?_⟩
  intro hnd o ho
  rw [hlog, countNext_obsPassLog, countComplete_obsPassLog]
  constructor
  · exact List.count_eq_one_of_mem hnd ho
  · exact List.count_eq_one_of_mem hnd ho

theorem dispatch_snapshot_amended_w :
    countNext 0 [Ev.nextEv 0 (Cancel.mk "r"), Ev.completeEv 0,
        Ev.nextEv 1 (Cancel.mk "r"), Ev.errEv 1, Ev.completeEv 1] = 1 ∧
      countComplete 0 [Ev.nextEv 0 (Cancel.mk "r"), Ev.completeEv 0,
        Ev.nextEv 1 (Cancel.mk "r"), Ev.errEv 1, Ev.completeEv 1] = 1 :=
  (dispatch_snapshot_amended 5 []
    (TokenSt.mk (some (Cancel.mk "r")) [0, 1]
      [(0, inertBeh), (1, ObsBehavior.mk true false [])] 2)
    (TokenSt.mk (some (Cancel.mk "r")) []
      [(0, inertBeh), (1, ObsBehavior.mk true false [])] 2,
      [Ev.nextEv 0 (Cancel.mk "r"), Ev.completeEv 0,
        Ev.nextEv 1 (Cancel.mk "r"), Ev.errEv 1, Ev.completeEv 1])
    (Cancel.mk "r") (by decide) rfl (by decide)).2.2 (by decide) 0 (by decide)

/-- Claim C6: an observer registered after the token has cancelled receives
`next` with the stored reason and then `complete` synchronously, within the
`subscribe` call itself — in the model, these deliveries appear in the event
log returned by the `subscribe` call (with host error reports if the
callbacks throw), before anything else can run. -/
theorem late_subscribe_sync_replay (f : Nat) (env : List ObsBehavior)
    (beh : ObsBehavior) (st : TokenSt) (out : TokenSt × List Ev) (r : Cancel)
    (hr : st.reason = some r) (hobs : st.observers = [])
    (hfresh : storeFresh st = true) (hsf : storeSubFree st.store = true)
    (hbeh : subFreeBeh beh = true)
    (h : subscribe f env beh st = some out) :
    out.2 = Ev.nextEv st.nextId r ::
        ((if beh.nextThrows then [Ev.errEv st.nextId] else [])
          ++ (Ev.completeEv st.nextId ::
              (if beh.completeThrows then [Ev.errEv st.nextId] else [])))
      ∧ out.1.observers = [] :=
  subscribe_fired_log f env beh st out r hr hobs hfresh hsf hbeh h

theorem late_subscribe_sync_replay_w :
    ([Ev.nextEv 0 (Cancel.mk "r"), Ev.errEv 0, Ev.completeEv 0] : List Ev)
        = Ev.nextEv 0 (Cancel.mk "r") ::
          ((if (ObsBehavior.mk true false []).nextThrows
              then [Ev.errEv 0] else [])
            ++ (Ev.completeEv 0 ::
                (if (ObsBehavior.mk true false []).completeThrows
                  then [Ev.errEv 0] else [])))
      ∧ (TokenSt.mk (some (Cancel.mk "r")) []
          [(0, ObsBehavior.mk true false [])] 1).observers = [] :=
  late_subscribe_sync_replay 4 [] (ObsBehavior.mk true false [])
    (TokenSt.mk (some (Cancel.mk "r")) [] [] 0)
    (TokenSt.mk (some (Cancel.mk "r")) [] [(0, ObsBehavior.mk true false [])] 1,
      [Ev.nextEv 0 (Cancel.mk "r"), Ev.errEv 0, Ev.completeEv 0])
    (Cancel.mk "r") rfl rfl (by decide) (by decide) (by decide) (by decide)

/-- Claim C7: during a dispatch pass, a throwing `next` or `complete` callback
results in a host error report (`HostReportErrors`) for that observer, while
every observer of the snapshot — including those after the thrower — still
receives its `next` (with the reason) and `complete` deliveries; the thrown
error is caught inside `_dispatch`, so the pass finishes normally and nothing
propagates to the caller of the trigger or of `subscribe`. -/
theorem dispatch_error_isolation (f : Nat) (env : List ObsBehavior)
    (st : TokenSt) (out : TokenSt × List Ev) (r : Cancel)
    (hsf : storeSubFree st.store = true) (hr : st.reason = some r)
    (h : dispatch f env st = some out) :
    ∀ o ∈ st.observers,
      Ev.nextEv o r ∈ out.2 ∧ Ev.completeEv o ∈ out.2 ∧
        ((lookupStore st.store o).nextThrows = true → Ev.errEv o ∈ out.2) ∧
        ((lookupStore st.store o).completeThrows = true → Ev.errEv o ∈ out.2) := by
  unfold dispatch at h
  obtain ⟨hlog, _, _, _, _⟩ := dispatch_subfree f env st out r hsf hr h
  intro o ho
  rw [hlog]
  unfold obsPassLog
  refine ⟨?_, ?_, ?_, ?_⟩
  · exact List.mem_flatMap.2 ⟨o, ho, by unfold passElem; simp⟩
  · exact List.mem_flatMap.2 ⟨o, ho, by unfold passElem; simp⟩
  · intro hth
    refine List.mem_flatMap.2 ⟨o, ho, ?_⟩
    unfold passElem
    have : (flagOf st.store o).1 = true := hth
    simp [this]
  · intro hth
    refine List.mem_flatMap.2 ⟨o, ho, ?_⟩
    unfold passElem
    have : (flagOf st.store o).2 = true := hth
    simp [this]

theorem dispatch_error_isolation_w :
    Ev.nextEv 0 (Cancel.mk "e")
        ∈ [Ev.nextEv 0 (Cancel.mk "e"), Ev.errEv 0, Ev.completeEv 0, Ev.errEv 0]
      ∧ Ev.completeEv 0
        ∈ [Ev.nextEv 0 (Cancel.mk "e"), Ev.errEv 0, Ev.completeEv 0, Ev.errEv 0]
      ∧ Ev.errEv 0
        ∈ [Ev.nextEv 0 (Cancel.mk "e"), Ev.errEv 0, Ev.completeEv 0, Ev.errEv 0] :=
  ⟨(dispatch_error_isolation 4 []
      (TokenSt.mk (some (Cancel.mk "e")) [0] [(0, ObsBehavior.mk true true [])] 1)
      (TokenSt.mk (some (Cancel.mk "e")) [] [(0, ObsBehavior.mk true true [])] 1,
        [Ev.nextEv 0 (Cancel.mk "e"), Ev.errEv 0, Ev.completeEv 0, Ev.errEv 0])
      (Cancel.mk "e") (by decide) rfl (by decide) 0 (by decide)).1,
    (dispatch_error_isolation 4 []
      (TokenSt.mk (some (Cancel.mk "e")) [0] [(0, ObsBehavior.mk true true [])] 1)
      (TokenSt.mk (some (Cancel.mk "e")) [] [(0, ObsBehavior.mk true true [])] 1,
        [Ev.nextEv 0 (Cancel.mk "e"), Ev.errEv 0, Ev.completeEv 0, Ev.errEv 0])
      (Cancel.mk "e") (by decide) rfl (by decide) 0 (by decide)).2.1,
    (dispatch_error_isolation 4 []
      (TokenSt.mk (some (Cancel.mk "e")) [0] [(0, ObsBehavior.mk true true [])] 1)
      (TokenSt.mk (some (Cancel.mk "e")) [] [(0, ObsBehavior.mk true true [])] 1,
        [Ev.nextEv 0 (Cancel.mk "e"), Ev.errEv 0, Ev.completeEv 0, Ev.errEv 0])
      (Cancel.mk "e") (by decide) rfl (by decide) 0 (by decide)).2.2.1 rfl⟩

/-- Claim C8: `throwIfRequested()` returns normally while the reason is
undefined and raises exactly the stored `Cancel` reason once it is set; it
reads `this._reason` only and never changes any state (it takes the state and
returns only the `Except` outcome). -/
theorem throwIfRequested_spec : ∀ st : TokenSt,
    (st.reason = none → throwIfRequested st = Except.ok ()) ∧
    (∀ r : Cancel, st.reason = some r → throwIfRequested st = Except.error r) := by
  intro st
  constructor
  · intro h
    unfold throwIfRequested
    rw [h]
  · intro r h
    unfold throwIfRequested
    rw [h]

theorem throwIfRequested_spec_w :
    throwIfRequested initSt = Except.ok () ∧
      throwIfRequested (TokenSt.mk (some (Cancel.mk "c")) [] [] 0)
        = Except.error (Cancel.mk "c") :=
  ⟨(throwIfRequested_spec initSt).1 rfl,
    (throwIfRequested_spec (TokenSt.mk (some (Cancel.mk "c")) [] [] 0)).2
      (Cancel.mk "c") rfl⟩

/-- Claim C9: triggering a pending token — in particular through the `cancel`
closure handed out by `CancelToken.source()` — stores a `Cancel` reason whose
message is the JS string coercion of the passed value; calling `cancel()` with
no argument passes `undefined`, so the stored message is the string
"undefined". -/
theorem trigger_message_coercion (f : Nat) (env : List ObsBehavior) (m : JSVal)
    (st : TokenSt) (out : TokenSt × List Ev) (hr : st.reason = none)
    (h : sourceCancel f env m st = some out) :
    out.1.reason = some (Cancel.mk (jsToString m)) ∧
      (m = JSVal.undef → out.1.reason = some (Cancel.mk "undefined")) := by
  unfold sourceCancel at h
  have h1 := (trigger_pending f env m st out hr h).1
  refine ⟨h1, fun hm => ?_⟩
  rw [h1, hm]
  rfl

theorem trigger_message_coercion_w :
    (TokenSt.mk (some (Cancel.mk "undefined")) [] [] 0, ([] : List Ev)).1.reason
      = some (Cancel.mk "undefined") :=
  (trigger_message_coercion 2 [] JSVal.undef initSt
    (TokenSt.mk (some (Cancel.mk "undefined")) [] [] 0, []) rfl (by decide)).2 rfl

/-- Claim C10: if the setup function `fn` passed to the constructor throws,
the exception propagates out of `new CancelToken(fn)` to the caller — the
constructor does not wrap `fn` in a try/catch, unlike observer delivery — and
if `fn` called the trigger before throwing, the token is nevertheless left
cancelled, its reason being the first trigger message before the throw. -/
theorem constructor_throw_propagates (f : Nat) (env : List ObsBehavior)
    (pre post : List FnAct) (out : TokenSt × List Ev × Bool)
    (hnm : FnAct.throwAct ∉ pre)
    (h : construct f env (pre ++ FnAct.throwAct :: post) = some out) :
    out.2.2 = true ∧ out.1.reason = (firstFnTrigger pre).map mkCancel := by
  unfold construct at h
  exact runFn_throw_prefix pre f env post initSt out hnm rfl h

theorem constructor_throw_propagates_w :
    (TokenSt.mk (some (Cancel.mk "stop")) [] [] 0, ([] : List Ev), true).2.2 = true
      ∧ (TokenSt.mk (some (Cancel.mk "stop")) [] [] 0, ([] : List Ev), true).1.reason
        = (firstFnTrigger [FnAct.triggerAct (JSVal.str "stop")]).map mkCancel :=
  constructor_throw_propagates 5 [] [FnAct.triggerAct (JSVal.str "stop")] []
    (TokenSt.mk (some (Cancel.mk "stop")) [] [] 0, [], true)
    (by decide) (by decide)
